import Mathlib

/-!
Verification of the download-and-extract utility (`utils.py`).

The four Python functions `download_file`, `unzip_file`,
`extract_from_location` and `download_and_extract` are embedded as pure
state-passing functions over an explicit `World` (local file system plus
the sequence of lines printed to standard output).  The two external
collaborators — the HTTP client (`requests`) and the zip library
(`zipfile`) — are black boxes per the design; they enter as oracles in an
`Env` record, so the theorems quantify over every possible behaviour of
the network and of the archive contents.

Python strings are modelled as `List Char`, byte strings as `List Nat`,
exceptions as an explicit error type threaded through `Res`.
-/

namespace Utils

/-- A Python string (URL, file path, message text), modelled as a list of
characters. -/
abbrev Str := List Char

/-- Byte strings (file contents, HTTP body chunks), modelled as lists of
naturals. -/
abbrev Bytes := List Nat

/-- Python `s.split(sep)` for a single-character separator: splits at every
occurrence of `sep`, keeping empty segments, and never returns an empty
list (`"".split(sep) == [""]`). -/
def pySplit (sep : Char) : Str → List Str
  | [] => [[]]
  | c :: cs =>
    match pySplit sep cs with
    | [] => [[]]
    | h :: t => if c = sep then [] :: h :: t else (c :: h) :: t

/-- Python `s.split(sep)[-1]`: the substring after the last occurrence of
`sep` (the whole string when `sep` does not occur). -/
def lastSegment (sep : Char) (s : Str) : Str :=
  (pySplit sep s).getLastD []

/-- Filename used by `download_file` (utils.py lines 26-27): the argument
when supplied, else `url.split('/')[-1]`. -/
def chosenName (url : Str) : Option Str → Str
  | none => lastSegment '/' url
  | some f => f

/-! ### CPython float arithmetic of the progress bar

`int(50 * downloaded / total_size)` (utils.py lines 50-51) divides two
Python integers with float true division.  CPython's `long_true_divide`
returns the IEEE-754 binary64 double nearest to the exact quotient
(round half to even, 53 significant bits), and `int()` then truncates
toward zero.  `pyDivInt a b` reproduces this composition exactly for
nonnegative operands in the normal range of binary64 (the quotient is
scaled so that its 53-bit mantissa is an integer, rounded half-to-even,
and the scaling undone with truncation); sub-normal underflow and
overflow of the double range are outside the model.  Python raises
`ZeroDivisionError` for `b = 0`; `pyDivInt` is never applied with
`b = 0` by the embedding (the progress branch requires a nonzero total),
so that case is mapped to the junk value `0`. -/

/-- Floor of the base-2 logarithm, by structural recursion on a fuel
argument (so that it evaluates inside the kernel). -/
def log2fuel : Nat → Nat → Nat
  | 0, _ => 0
  | fuel+1, n => if n ≤ 1 then 0 else log2fuel fuel (n / 2) + 1

/-- `natLog2 n` is `⌊log₂ n⌋` for `n ≥ 1` (and `0` at `0`). -/
def natLog2 (n : Nat) : Nat := log2fuel n n

/-- Round `n / d` (for `d > 0`) to the nearest integer, ties to even —
the rounding used by IEEE-754 binary64 arithmetic. -/
def rneDiv (n d : Nat) : Nat :=
  let q := n / d
  let r := n % d
  if 2 * r < d then q
  else if d < 2 * r then q + 1
  else if q % 2 = 0 then q else q + 1

/-- `int(a / b)` for nonnegative Python integers under CPython semantics:
correctly rounded binary64 true division followed by truncation toward
zero.  `e` is `⌊log₂ (a/b)⌋`; the quotient is scaled by `2^(52-e)` so that
rounding half-to-even of the scaled quotient gives the 53-bit mantissa. -/
def pyDivInt (a b : Nat) : Nat :=
  if a = 0 ∨ b = 0 then 0
  else
    let l : Int := (natLog2 a : Int) - (natLog2 b : Int)
    let e : Int := if a * 2 ^ (-l).toNat < b * 2 ^ l.toNat then l - 1 else l
    let m : Nat := rneDiv (a * 2 ^ (52 - e).toNat) (b * 2 ^ (e - 52).toNat)
    m * 2 ^ (e - 52).toNat / 2 ^ (52 - e).toNat

/-- `done = int(50 * downloaded / total_size)` (utils.py line 50). -/
def progressDone (downloaded total : Nat) : Nat :=
  pyDivInt (50 * downloaded) total

/-- `percent = int(100 * downloaded / total_size)` (utils.py line 51). -/
def progressPercent (downloaded total : Nat) : Nat :=
  pyDivInt (100 * downloaded) total

/-- `bar = '=' * done + ' ' * (50 - done)` (utils.py line 52). -/
def progressBar (done : Nat) : Str :=
  List.replicate done '=' ++ List.replicate (50 - done) ' '

/-! ### Errors and console output -/

/-- Python exceptions raised by the modelled operations.
`connError`, `httpStatusError` and `streamError` are the
`requests.exceptions.RequestException` subclasses that can arise from
`requests.get`, `raise_for_status` and body iteration respectively;
`fileNotFound` is `FileNotFoundError`; `badZipFile` is
`zipfile.BadZipFile`; `removeNotFound` and `removeDenied` are the
`OSError` subclasses raised by `os.remove` on a missing path and on a
path the process may not unlink. -/
inductive Err where
  | connError (msg : Str)
  | httpStatusError (status : Nat)
  | streamError (msg : Str)
  | fileNotFound (path : Str)
  | badZipFile (msg : Str)
  | removeNotFound (path : Str)
  | removeDenied (path : Str)
deriving DecidableEq

/-- Lines printed to standard output by `utils.py`, one constructor per
`print` call site, carrying the interpolated values. -/
inductive Msg where
  | downloading (fname url : Str)
  | downloaded (fname : Str)
  | progress (bar : Str) (percent downloaded total : Nat)
  | newline
  | downloadComplete (fname : Str)
  | errorDownloading (e : Err)
  | extracting (path : Str)
  | extractionComplete (dir : Str)
  | errorInvalidZip (e : Err)
  | cleanedUp (path : Str)
  | errorExtractFromLocation (e : Err)
  | errorDownloadAndExtract (e : Err)
deriving DecidableEq

/-- The progress line `\r[{bar}] {percent}% ({downloaded}/{total} bytes)`
(utils.py line 53), redrawn after each chunk. -/
def renderProgress (downloaded total : Nat) : Msg :=
  .progress (progressBar (progressDone downloaded total))
    (progressPercent downloaded total) downloaded total

/-! ### The world: file system and standard output -/

/-- Association-list file system: later entries are shadowed by earlier
ones; `locked` is the set of paths the process is not permitted to
unlink (modelling `os.remove` permission failures).  Reads, writes and
file creation are assumed to succeed (no disk-full or invalid-name
modelling). -/
structure World where
  fs : List (Str × Bytes)
  locked : List Str
  out : List Msg
deriving DecidableEq

/-- Content of the file at `p`, if it exists. -/
def fsGet : List (Str × Bytes) → Str → Option Bytes
  | [], _ => none
  | (q, c) :: t, p => if q = p then some c else fsGet t p

/-- Create the file at `p` with content `b`, or replace its content. -/
def fsSet : List (Str × Bytes) → Str → Bytes → List (Str × Bytes)
  | [], p, b => [(p, b)]
  | (q, c) :: t, p, b => if q = p then (p, b) :: t else (q, c) :: fsSet t p b

/-- Delete the file at `p`. -/
def fsDel : List (Str × Bytes) → Str → List (Str × Bytes)
  | [], _ => []
  | (q, c) :: t, p => if q = p then fsDel t p else (q, c) :: fsDel t p

/-- `os.path.exists p`. -/
def fsExists (fs : List (Str × Bytes)) (p : Str) : Bool :=
  (fsGet fs p).isSome

/-- Append one line to standard output. -/
def wPrint (w : World) (m : Msg) : World :=
  { w with out := w.out ++ [m] }

/-- Write content `b` to the file at `p` (creating or truncating it). -/
def wWrite (w : World) (p : Str) (b : Bytes) : World :=
  { w with fs := fsSet w.fs p b }

/-! ### The external collaborators -/

/-- Behaviour of `requests.get(url, stream=True)`: either the request
itself raises, or a response arrives with a status code, the value of the
`content-length` header (`0` when the header is absent, utils.py line 35),
the body chunks that the server will deliver, and optionally an error
that interrupts the body stream after those chunks. -/
inductive HttpRes where
  | connError (msg : Str)
  | resp (status : Nat) (contentLength : Nat) (chunks : List Bytes)
      (streamErr : Option Str)

/-- Behaviour of `zipfile.ZipFile(path) ... extractall(dir)` on given
archive bytes: the constructor rejects the bytes as not-a-zip, or the
archive holds `entries` (relative path and content, in extraction order),
with `extractErr` an optional `BadZipFile` error detected only after the
listed entries were already written (e.g. a bad CRC in a later member). -/
inductive ZipRes where
  | badZip (msg : Str)
  | archive (entries : List (Str × Bytes)) (extractErr : Option Str)

/-- The two black-box collaborators of the design: an HTTP client and a
zip decompression library. -/
structure Env where
  http : Str → HttpRes
  zip : Bytes → ZipRes

/-- Result of a call: normal return or raised exception, in both cases
with the final world. -/
inductive Res (α : Type) where
  | ok : α → World → Res α
  | err : Err → World → Res α
deriving DecidableEq

/-- The world component of a result. -/
def Res.world {α : Type} : Res α → World
  | .ok _ w => w
  | .err _ w => w

/-- `os.path.join dir name` as used by `extractall`. -/
def joinPath (dir name : Str) : Str := dir ++ '/' :: name

/-- `extractall`: write every entry of the archive under the destination
directory, in order. -/
def extractAll (fs : List (Str × Bytes)) (dest : Str)
    (entries : List (Str × Bytes)) : List (Str × Bytes) :=
  entries.foldl (fun acc en => fsSet acc (joinPath dest en.1) en.2) fs

/-- `os.remove p`: raises `FileNotFoundError` when the path is missing,
`PermissionError` when the path may not be unlinked, else deletes it. -/
def osRemove (w : World) (p : Str) : Res Unit :=
  if fsExists w.fs p = false then .err (.removeNotFound p) w
  else if p ∈ w.locked then .err (.removeDenied p) w
  else .ok () { w with fs := fsDel w.fs p }

/-- The body-download loop of `download_file` (utils.py lines 45-53):
for each chunk, add its length to `downloaded`, append it to the open
file, and redraw the progress line. -/
def writeChunks (fname : Str) (total : Nat) (show_progress : Bool) :
    List Bytes → Nat → World → World
  | [], _, w => w
  | c :: cs, downloaded, w =>
    let downloaded := downloaded + c.length
    let w := wWrite w fname ((fsGet w.fs fname).getD [] ++ c)
    let w := if show_progress then wPrint w (renderProgress downloaded total)
             else w
    writeChunks fname total show_progress cs downloaded w

/-- `download_file(url, filename=None, show_progress=True)`
(utils.py lines 11-63).  `requests.get`, `raise_for_status`
(which raises exactly for statuses 400-599) and the header read happen
before the output file is opened; opening with mode `'wb'` truncates or
creates the file; when the total size is zero or progress is disabled the
whole body is materialised before the single write (so a body error
leaves the file empty), else the body is streamed chunk-wise with the
progress line after each chunk.  All `RequestException`s are printed and
re-raised (lines 61-63). -/
def download_file (env : Env) (url : Str) (filename : Option Str)
    (show_progress : Bool) (w : World) : Res Str :=
  let fname := chosenName url filename
  let w := wPrint w (.downloading fname url)
  match env.http url with
  | .connError m =>
    let e := Err.connError m
    .err e (wPrint w (.errorDownloading e))
  | .resp status contentLength chunks streamErr =>
    if 400 ≤ status ∧ status < 600 then
      let e := Err.httpStatusError status
      .err e (wPrint w (.errorDownloading e))
    else
      if contentLength = 0 ∨ show_progress = false then
        let w := wWrite w fname []
        match streamErr with
        | some m =>
          let e := Err.streamError m
          .err e (wPrint w (.errorDownloading e))
        | none =>
          let w := wWrite w fname chunks.flatten
          let w := wPrint w (.downloaded fname)
          .ok fname w
      else
        let w := wWrite w fname []
        let w := writeChunks fname contentLength show_progress chunks 0 w
        match streamErr with
        | some m =>
          let e := Err.streamError m
          .err e (wPrint w (.errorDownloading e))
        | none =>
          let w := if show_progress then wPrint w .newline else w
          let w := wPrint w (.downloadComplete fname)
          .ok fname w

/-- `unzip_file(zip_path, extract_to='.')` (utils.py lines 66-95).
The existence check and its `FileNotFoundError` (lines 81-82) precede the
`try` block and every archive access; only `BadZipFile` is caught, printed
and re-raised (lines 93-95). -/
def unzip_file (env : Env) (zip_path : Str) (extract_to : Str) (w : World) :
    Res Str :=
  if fsExists w.fs zip_path = false then
    .err (.fileNotFound zip_path) w
  else
    let w := wPrint w (.extracting zip_path)
    match env.zip ((fsGet w.fs zip_path).getD []) with
    | .badZip m =>
      let e := Err.badZipFile m
      .err e (wPrint w (.errorInvalidZip e))
    | .archive entries extractErr =>
      let w := { w with fs := extractAll w.fs extract_to entries }
      match extractErr with
      | some m =>
        let e := Err.badZipFile m
        .err e (wPrint w (.errorInvalidZip e))
      | none =>
        let w := wPrint w (.extractionComplete extract_to)
        .ok extract_to w

/-- `extract_from_location(zip_path, extract_to='.', cleanup=False)`
(utils.py lines 98-126): extract, then optionally `os.remove` the
archive; any exception is printed and re-raised (lines 124-126). -/
def extract_from_location (env : Env) (zip_path : Str) (extract_to : Str)
    (cleanup : Bool) (w : World) : Res Str :=
  match unzip_file env zip_path extract_to w with
  | .err e w => .err e (wPrint w (.errorExtractFromLocation e))
  | .ok extract_dir w =>
    if cleanup then
      match osRemove w zip_path with
      | .err e w => .err e (wPrint w (.errorExtractFromLocation e))
      | .ok _ w =>
        let w := wPrint w (.cleanedUp zip_path)
        .ok extract_dir w
    else .ok extract_dir w

/-- `download_and_extract(url, filename=None, extract_to='.',
cleanup=False, show_progress=True)` (utils.py lines 129-162): download,
then extract the downloaded file, then optionally `os.remove` it; any
exception is printed and re-raised (lines 160-162). -/
def download_and_extract (env : Env) (url : Str) (filename : Option Str)
    (extract_to : Str) (cleanup : Bool) (show_progress : Bool) (w : World) :
    Res (Str × Str) :=
  match download_file env url filename show_progress w with
  | .err e w => .err e (wPrint w (.errorDownloadAndExtract e))
  | .ok downloaded_file w =>
    match unzip_file env downloaded_file extract_to w with
    | .err e w => .err e (wPrint w (.errorDownloadAndExtract e))
    | .ok extract_dir w =>
      if cleanup then
        match osRemove w downloaded_file with
        | .err e w => .err e (wPrint w (.errorDownloadAndExtract e))
        | .ok _ w =>
          let w := wPrint w (.cleanedUp downloaded_file)
          .ok (downloaded_file, extract_dir) w
      else .ok (downloaded_file, extract_dir) w

/-! ### Concrete fixtures used by witnesses and counterexamples -/

/-- An empty initial world. -/
def w0 : World := { fs := [], locked := [], out := [] }

/-- A sample URL `"h/a"`; its derived filename is `"a"`. -/
def urlC : Str := ['h', '/', 'a']

/-- Derived filename of `urlC`. -/
def fnameC : Str := ['a']

/-- A destination directory `"o"`. -/
def destC : Str := ['o']

/-- Archive bytes served by `envOk`. -/
def zipBytesC : Bytes := [1, 2]

/-- An environment whose server returns status 200 with a two-chunk body
and whose zip library sees one entry `("x", [7])` in those bytes. -/
def envOk : Env :=
  { http := fun _ => .resp 200 2 [[1], [2]] none
    zip := fun b => if b = zipBytesC then .archive [(['x'], [7])] none
                    else .badZip ['?'] }

/-- An environment whose server always fails at connection time. -/
def envConn : Env :=
  { http := fun _ => .connError ['c']
    zip := fun _ => .badZip ['?'] }

/-- An environment that serves `zipBytesC` but whose zip library rejects
everything as not a zip file. -/
def envBadZip : Env :=
  { http := fun _ => .resp 200 2 [[1], [2]] none
    zip := fun _ => .badZip ['m'] }

/-- An environment that serves `zipBytesC` but whose zip library detects
a `BadZipFile` error only after extracting one entry. -/
def envZipErr : Env :=
  { http := fun _ => .resp 200 2 [[1], [2]] none
    zip := fun _ => .archive [(['x'], [7])] (some ['e']) }

/-- An environment whose server answers 404 with an HTML body. -/
def env404 : Env :=
  { http := fun _ => .resp 404 9 [[60, 62]] none
    zip := fun _ => .badZip ['?'] }

/-- An environment whose server answers 304 Not Modified (a non-2xx
status that `raise_for_status` does not raise on). -/
def env304 : Env :=
  { http := fun _ => .resp 304 0 [] none
    zip := fun _ => .badZip ['?'] }

/-- A world holding the archive `"z"` with contents `zipBytesC`. -/
def wZip : World := { fs := [(['z'], zipBytesC)], locked := [], out := [] }

/-- A world holding the archive `"z"`, with `"z"` not removable
(permission denied on unlink). -/
def wZipLocked : World :=
  { fs := [(['z'], zipBytesC)], locked := [['z']], out := [] }

/-- An empty world in which the derived filename `"a"` may not be
unlinked. -/
def wLockA : World := { fs := [], locked := [fnameC], out := [] }

/-- The world after `download_file envOk urlC` starting from `wLockA`. -/
def wDlLock : World :=
  { fs := [(fnameC, [1, 2])], locked := [fnameC]
    out := [.downloading fnameC urlC, .downloaded fnameC] }

/-- The world after `download_file envOk urlC` without progress. -/
def wDl : World :=
  { fs := [(fnameC, [1, 2])], locked := []
    out := [.downloading fnameC urlC, .downloaded fnameC] }

/-- The world after download-then-extract of `urlC` under `envOk`. -/
def wOkFinal : World :=
  { fs := [(fnameC, [1, 2]), (['o', '/', 'x'], [7])], locked := []
    out := [.downloading fnameC urlC, .downloaded fnameC,
      .extracting fnameC, .extractionComplete destC] }

/-- The world after `unzip_file envOk` of the archive `"z"` from `wZip`. -/
def wZipUnz : World :=
  { fs := [(['z'], zipBytesC), (['o', '/', 'x'], [7])], locked := []
    out := [.extracting ['z'], .extractionComplete destC] }

/-- The world after `unzip_file envOk` of `"z"` from `wZipLocked`. -/
def wZipUnzLocked : World :=
  { fs := [(['z'], zipBytesC), (['o', '/', 'x'], [7])], locked := [['z']]
    out := [.extracting ['z'], .extractionComplete destC] }

/-- The world after extract-with-cleanup of `"z"` from `wZip`. -/
def wCleaned : World :=
  { fs := [(['o', '/', 'x'], [7])], locked := []
    out := [.extracting ['z'], .extractionComplete destC, .cleanedUp ['z']] }

/-- The world after download-extract-cleanup of `urlC` from `w0` under
`envOk`. -/
def wDaeClean : World :=
  { fs := [(['o', '/', 'x'], [7])], locked := []
    out := [.downloading fnameC urlC, .downloaded fnameC,
      .extracting fnameC, .extractionComplete destC, .cleanedUp fnameC] }

/-- The world after download-then-extract of `urlC` under `envOk` when
starting from `wLockA`. -/
def wUnzLock : World :=
  { fs := [(fnameC, [1, 2]), (['o', '/', 'x'], [7])], locked := [fnameC]
    out := [.downloading fnameC urlC, .downloaded fnameC,
      .extracting fnameC, .extractionComplete destC] }

/-! ## Lemmas about Python `split` -/

theorem pySplit_ne_nil (sep : Char) (s : Str) : pySplit sep s ≠ [] := by
  cases s with
  | nil => simp [pySplit]
  | cons c cs =>
    unfold pySplit
    cases h : pySplit sep cs with
    | nil => simp
    | cons hd tl => by_cases hc : c = sep <;> simp [hc]

theorem pySplit_of_not_mem (sep : Char) (s : Str) (h : sep ∉ s) :
    pySplit sep s = [s] := by
  induction s with
  | nil => rfl
  | cons c cs ih =>
    rw [List.mem_cons, not_or] at h
    have hc : ¬(c = sep) := fun hc => h.1 hc.symm
    simp [pySplit, ih h.2, hc]

theorem pySplit_cons (sep c : Char) (cs : Str) :
    pySplit sep (c :: cs) =
      match pySplit sep cs with
      | [] => [[]]
      | h :: t => if c = sep then [] :: h :: t else (c :: h) :: t := rfl

theorem two_le_length_pySplit (sep : Char) (s : Str) (h : sep ∈ s) :
    2 ≤ (pySplit sep s).length := by
  induction s with
  | nil => simp at h
  | cons c cs ih =>
    rw [pySplit_cons]
    cases hr : pySplit sep cs with
    | nil => exact absurd hr (pySplit_ne_nil _ _)
    | cons hd tl =>
      by_cases hc : c = sep
      · simp [hc]
      · simp only [if_neg hc]
        rcases List.mem_cons.mp h with h1 | h2
        · exact absurd h1.symm hc
        · have h2' := ih h2
          rw [hr] at h2'
          simpa using h2'

theorem getLastD_irrel {α : Type} (l : List α) (h : l ≠ []) (d d' : α) :
    l.getLastD d = l.getLastD d' := by
  cases l with
  | nil => exact absurd rfl h
  | cons a t => rw [List.getLastD_cons, List.getLastD_cons]

theorem lastSegment_cons (sep c : Char) (cs : Str) (h : sep ∈ cs) :
    lastSegment sep (c :: cs) = lastSegment sep cs := by
  unfold lastSegment
  rw [pySplit_cons]
  have hlen := two_le_length_pySplit sep cs h
  cases hr : pySplit sep cs with
  | nil => exact absurd hr (pySplit_ne_nil _ _)
  | cons hd tl =>
    rw [hr] at hlen
    have htl : tl ≠ [] := by
      intro e
      subst e
      simp at hlen
    dsimp only
    by_cases hc : c = sep
    · rw [if_pos hc]
      simp [List.getLastD_cons]
    · rw [if_neg hc]
      simp only [List.getLastD_cons]
      exact getLastD_irrel tl htl _ _

theorem lastSegment_append_sep (sep : Char) (s : Str) :
    lastSegment sep (s ++ [sep]) = [] := by
  induction s with
  | nil => simp [lastSegment, pySplit]
  | cons c cs ih =>
    have hmem : sep ∈ cs ++ [sep] := by simp
    rw [List.cons_append, lastSegment_cons sep c _ hmem, ih]

theorem lastSegment_spec (sep : Char) (s : Str) (h : sep ∈ s) :
    ∃ pre, s = pre ++ sep :: lastSegment sep s ∧ sep ∉ lastSegment sep s := by
  induction s with
  | nil => simp at h
  | cons c cs ih =>
    by_cases hcs : sep ∈ cs
    · obtain ⟨pre, hpre, hmem⟩ := ih hcs
      rw [lastSegment_cons sep c cs hcs]
      exact ⟨c :: pre, by rw [List.cons_append, ← hpre], hmem⟩
    · have hc : c = sep := by
        rcases List.mem_cons.mp h with h1 | h2
        · exact h1.symm
        · exact absurd h2 hcs
      subst hc
      have hlast : lastSegment c (c :: cs) = cs := by
        unfold lastSegment
        rw [pySplit_cons, pySplit_of_not_mem c cs hcs]
        simp [List.getLastD_cons]
      rw [hlast]
      exact ⟨[], by simp, hcs⟩

/-- C6: when no filename is supplied and the URL contains a `/`, the
filename used and returned by `download_file` is exactly the substring of
the URL following its final `/` (that substring itself contains no `/`). -/
theorem claim_filename_derivation (url : Str) (h : '/' ∈ url) :
    (∃ pre, url = pre ++ '/' :: lastSegment '/' url
      ∧ '/' ∉ lastSegment '/' url)
    ∧ ∀ env sp w d w1, download_file env url none sp w = .ok d w1 →
        d = lastSegment '/' url := by
  refine ⟨lastSegment_spec '/' url h, ?_⟩
  intro env sp w d w1 hok
  unfold download_file chosenName at hok
  cases henv : env.http url with
  | connError m => rw [henv] at hok; simp at hok
  | resp status clen chunks se =>
    rw [henv] at hok
    dsimp only at hok
    by_cases hst : 400 ≤ status ∧ status < 600
    · rw [if_pos hst] at hok; simp at hok
    · rw [if_neg hst] at hok
      by_cases hbr : clen = 0 ∨ sp = false
      · rw [if_pos hbr] at hok
        cases se with
        | some m => simp at hok
        | none => simp at hok; exact hok.1.symm
      · rw [if_neg hbr] at hok
        cases se with
        | some m => simp at hok
        | none => simp at hok; exact hok.1.symm

/-- Witness for C6 at the concrete URL `"h/a"`. -/
theorem claim_filename_derivation_witness :
    (∃ pre, urlC = pre ++ '/' :: lastSegment '/' urlC
      ∧ '/' ∉ lastSegment '/' urlC)
    ∧ fnameC = lastSegment '/' urlC := by
  refine ⟨(claim_filename_derivation urlC (by decide)).1, ?_⟩
  exact (claim_filename_derivation urlC (by decide)).2 envOk false w0 fnameC
    ⟨[(fnameC, [1, 2])], [], [.downloading fnameC urlC, .downloaded fnameC]⟩
    (by decide)

/-- C10: the derivation handles URLs outside the spec's domain without
failing: with no `/` in the URL the derived filename is the whole URL,
and for a URL ending in `/` it is the empty string. -/
theorem claim_filename_derivation_edge :
    (∀ url : Str, '/' ∉ url → lastSegment '/' url = url)
    ∧ ∀ s : Str, lastSegment '/' (s ++ ['/']) = [] := by
  constructor
  · intro url h
    unfold lastSegment
    rw [pySplit_of_not_mem '/' url h]
    rfl
  · exact fun s => lastSegment_append_sep '/' s

/-- Witness for C10 at the concrete URLs `"a"` and `"a/"`. -/
theorem claim_filename_derivation_edge_witness :
    lastSegment '/' ['a'] = ['a'] ∧ lastSegment '/' (['a'] ++ ['/']) = [] :=
  ⟨claim_filename_derivation_edge.1 ['a'] (by decide),
   claim_filename_derivation_edge.2 ['a']⟩

/-! ## Lemmas about the float model of the progress arithmetic -/

theorem log2fuel_spec : ∀ fuel n, 1 ≤ n → n ≤ fuel →
    2 ^ log2fuel fuel n ≤ n ∧ n < 2 ^ (log2fuel fuel n + 1) := by
  intro fuel
  induction fuel with
  | zero => intro n h1 h2; omega
  | succ f ih =>
    intro n h1 h2
    unfold log2fuel
    by_cases hn : n ≤ 1
    · simp [hn]; omega
    · have h2' : n / 2 ≤ f := by omega
      have h1' : 1 ≤ n / 2 := by omega
      have hrec := ih (n / 2) h1' h2'
      simp only [if_neg hn]
      constructor
      · have he : 2 ^ (log2fuel f (n / 2) + 1) = 2 * 2 ^ log2fuel f (n / 2) := by
          ring
        rw [he]
        omega
      · have he : 2 ^ (log2fuel f (n / 2) + 1 + 1)
            = 2 * 2 ^ (log2fuel f (n / 2) + 1) := by ring
        rw [he]
        omega

theorem natLog2_spec (n : Nat) (h : 1 ≤ n) :
    2 ^ natLog2 n ≤ n ∧ n < 2 ^ (natLog2 n + 1) :=
  log2fuel_spec n n h le_rfl

theorem rneDiv_bounds (n d : Nat) (hd : 0 < d) :
    2 * rneDiv n d * d ≤ 2 * n + d ∧ 2 * n ≤ 2 * rneDiv n d * d + d := by
  unfold rneDiv
  dsimp only
  obtain ⟨q, hq⟩ : ∃ q, n / d = q := ⟨_, rfl⟩
  obtain ⟨r, hr⟩ : ∃ r, n % d = r := ⟨_, rfl⟩
  have hqr : d * q + r = n := by rw [← hq, ← hr]; exact Nat.div_add_mod n d
  have hrd : r < d := hr ▸ Nat.mod_lt n hd
  rw [hq, hr]
  by_cases h1 : 2 * r < d
  · rw [if_pos h1]
    constructor <;> nlinarith
  · rw [if_neg h1]
    by_cases h2 : d < 2 * r
    · rw [if_pos h2]
      constructor <;> nlinarith
    · rw [if_neg h2]
      by_cases h3 : q % 2 = 0
      · rw [if_pos h3]
        constructor <;> nlinarith
      · rw [if_neg h3]
        constructor <;> nlinarith

theorem rneDiv_exact (n d : Nat) (hmod : n % d = 0) (hd : 0 < d) :
    rneDiv n d = n / d := by
  unfold rneDiv
  dsimp only
  rw [hmod]
  simp [hd]

theorem pyDivInt_core_exact (a b : Nat) (e : Int) (hb : 0 < b) (he : e ≤ 52)
    (hmod : a % b = 0) :
    rneDiv (a * 2 ^ (52 - e).toNat) (b * 2 ^ (e - 52).toNat)
      * 2 ^ (e - 52).toNat / 2 ^ (52 - e).toNat = a / b := by
  have ht : (e - 52).toNat = 0 := by omega
  rw [ht, pow_zero, mul_one, mul_one]
  obtain ⟨k, rfl⟩ : b ∣ a := Nat.dvd_of_mod_eq_zero hmod
  have hmod2 : (b * k * 2 ^ (52 - e).toNat) % b = 0 := by
    rw [mul_assoc]
    exact Nat.mul_mod_right b _
  rw [rneDiv_exact _ b hmod2 hb]
  rw [mul_assoc, Nat.mul_div_cancel_left _ hb,
    Nat.mul_div_cancel _ (Nat.two_pow_pos _), Nat.mul_div_cancel_left _ hb]

theorem pyDivInt_core (a b : Nat) (e : Int) (hb : 0 < b) (he : e ≤ 7)
    (hbb : b < 2 ^ 46) :
    rneDiv (a * 2 ^ (52 - e).toNat) (b * 2 ^ (e - 52).toNat)
      * 2 ^ (e - 52).toNat / 2 ^ (52 - e).toNat = a / b := by
  by_cases hmod : a % b = 0
  · exact pyDivInt_core_exact a b e hb (by omega) hmod
  · have ht : (e - 52).toNat = 0 := by omega
    rw [ht, pow_zero, mul_one, mul_one]
    obtain ⟨s, hs⟩ : ∃ s, (52 - e).toNat = s := ⟨_, rfl⟩
    have hs45 : 45 ≤ s := by omega
    rw [hs]
    obtain ⟨q, hq⟩ : ∃ q, a / b = q := ⟨_, rfl⟩
    obtain ⟨r, hr⟩ : ∃ r, a % b = r := ⟨_, rfl⟩
    have hqr : b * q + r = a := by rw [← hq, ← hr]; exact Nat.div_add_mod a b
    have hrb : r < b := hr ▸ Nat.mod_lt a hb
    have hr1 : 1 ≤ r := by omega
    obtain ⟨h1, h2⟩ := rneDiv_bounds (a * 2 ^ s) b hb
    obtain ⟨m, hm⟩ : ∃ m, rneDiv (a * 2 ^ s) b = m := ⟨_, rfl⟩
    rw [hm] at h1 h2 ⊢
    have hb2 : b < 2 * 2 ^ s := by
      have h46 : (2:ℕ) ^ 46 ≤ 2 ^ (s + 1) :=
        Nat.pow_le_pow_right (by norm_num) (by omega)
      have he2 : (2:ℕ) ^ (s + 1) = 2 * 2 ^ s := by ring
      omega
    have key : a * 2 ^ s = b * q * 2 ^ s + r * 2 ^ s := by rw [← hqr]; ring
    have hr2s : 2 ^ s ≤ r * 2 ^ s := Nat.le_mul_of_pos_left _ hr1
    have hlow : q * 2 ^ s < m := by
      have step : 2 * (b * (q * 2 ^ s)) < 2 * (b * m) := by nlinarith
      exact lt_of_mul_lt_mul_left (by linarith) (Nat.zero_le b)
    have hhigh : m < (q + 1) * 2 ^ s := by
      have hrs : r * 2 ^ s + 2 ^ s ≤ b * 2 ^ s := by
        have : (r + 1) * 2 ^ s ≤ b * 2 ^ s := Nat.mul_le_mul_right _ hrb
        nlinarith
      have step : m * b < ((q + 1) * 2 ^ s) * b := by nlinarith
      exact lt_of_mul_lt_mul_right step (Nat.zero_le b)
    rw [hq]
    exact Nat.div_eq_of_lt_le (le_of_lt hlow) hhigh

theorem pyDivInt_eq_div (a b : Nat) (hb : 0 < b) (ha : a ≤ 128 * b)
    (hbb : b < 2 ^ 46) : pyDivInt a b = a / b := by
  by_cases ha0 : a = 0
  · subst ha0; simp [pyDivInt]
  · have hl : (natLog2 a : Int) - natLog2 b ≤ 7 := by
      have hA := (natLog2_spec a (by omega)).1
      have hB := (natLog2_spec b hb).2
      have hchain : (2:ℕ) ^ natLog2 a < 2 ^ (natLog2 b + 8) := by
        have h128 : 128 * b < 128 * 2 ^ (natLog2 b + 1) :=
          (Nat.mul_lt_mul_left (by norm_num)).mpr hB
        have heq : 128 * 2 ^ (natLog2 b + 1) = 2 ^ (natLog2 b + 8) := by
          rw [show (128:ℕ) = 2 ^ 7 from rfl, ← pow_add]
          ring_nf
        omega
      have := (Nat.pow_lt_pow_iff_right (by norm_num : 1 < 2)).mp hchain
      omega
    unfold pyDivInt
    rw [if_neg (by omega)]
    dsimp only
    apply pyDivInt_core a b _ hb ?_ hbb
    split
    · omega
    · omega

theorem pyDivInt_exact_mul (c T : Nat) (hT : 0 < T) (hc : 0 < c) (hle : c ≤ 128) :
    pyDivInt (c * T) T = c := by
  have hl : (natLog2 (c * T) : Int) - natLog2 T ≤ 7 := by
    have hA := (natLog2_spec (c * T) (Nat.mul_pos hc hT)).1
    have hB := (natLog2_spec T hT).2
    have hchain : (2:ℕ) ^ natLog2 (c * T) < 2 ^ (natLog2 T + 8) := by
      have h128 : c * T ≤ 128 * T := Nat.mul_le_mul_right _ hle
      have h2 : 128 * T < 128 * 2 ^ (natLog2 T + 1) :=
        (Nat.mul_lt_mul_left (by norm_num)).mpr hB
      have heq : 128 * 2 ^ (natLog2 T + 1) = 2 ^ (natLog2 T + 8) := by
        rw [show (128:ℕ) = 2 ^ 7 from rfl, ← pow_add]
        ring_nf
      omega
    have := (Nat.pow_lt_pow_iff_right (by norm_num : 1 < 2)).mp hchain
    omega
  have hmod : (c * T) % T = 0 := Nat.mul_mod_left c T
  have hne : ¬(c * T = 0 ∨ T = 0) := by
    push_neg
    exact ⟨Nat.mul_ne_zero (by omega) (by omega), by omega⟩
  unfold pyDivInt
  rw [if_neg hne]
  dsimp only
  refine Eq.trans (pyDivInt_core_exact (c * T) T _ hT ?_ hmod) ?_
  · split <;> omega
  · exact Nat.mul_div_cancel c hT

/-- C7 (amended): for totals below `2^46` bytes the rendered bar has
exactly `⌊50*d/T⌋` fill characters out of 50 and the displayed percent is
exactly `⌊100*d/T⌋`; at `d = T` the fill is 50 and the percent 100 for
every total.  (For larger totals the float division of the source rounds,
see the counterexample.) -/
theorem claim_progress_bar_arith :
    (∀ T d : Nat, 0 < T → d ≤ T → T < 2 ^ 46 →
        (progressBar (progressDone d T)).count '=' = 50 * d / T
        ∧ (progressBar (progressDone d T)).length = 50
        ∧ progressPercent d T = 100 * d / T)
    ∧ ∀ T : Nat, 0 < T →
        (progressBar (progressDone T T)).count '=' = 50
        ∧ (progressBar (progressDone T T)).length = 50
        ∧ progressPercent T T = 100 := by
  constructor
  · intro T d hT hdT hT46
    have hdone : progressDone d T = 50 * d / T :=
      pyDivInt_eq_div (50 * d) T hT (by omega) hT46
    have hpct : progressPercent d T = 100 * d / T :=
      pyDivInt_eq_div (100 * d) T hT (by omega) hT46
    have hle : 50 * d / T ≤ 50 := by
      have h1 : 50 * d ≤ 50 * T := by omega
      have h2 : 50 * d / T ≤ 50 * T / T := Nat.div_le_div_right h1
      rwa [Nat.mul_div_cancel 50 hT] at h2
    refine ⟨?_, ?_, hpct⟩
    · rw [hdone]
      unfold progressBar
      rw [List.count_append]
      simp [List.count_replicate]
    · rw [hdone]
      unfold progressBar
      rw [List.length_append, List.length_replicate, List.length_replicate]
      omega
  · intro T hT
    have hdone : progressDone T T = 50 :=
      pyDivInt_exact_mul 50 T hT (by norm_num) (by norm_num)
    have hpct : progressPercent T T = 100 :=
      pyDivInt_exact_mul 100 T hT (by norm_num) (by norm_num)
    rw [hdone, hpct]
    refine ⟨by decide, by decide, rfl⟩

/-- C7 counterexample: with total `T = 2^54 + 17` and
`d = (T-1)/50` downloaded bytes, `⌊50*d/T⌋ = 0`, yet the bar rendered by
the source has fill length 1 — `50*d/T = 1 - 1/T` and CPython float
division rounds it up to `1.0` — so the claimed fill length
`⌊50*d/T⌋` is wrong at this input. -/
theorem claim_progress_bar_counterexample :
    360287970189640 ≤ 18014398509482001
    ∧ (progressBar
        (progressDone 360287970189640 18014398509482001)).count '=' = 1
    ∧ 50 * 360287970189640 / 18014398509482001 = 0 := by
  decide

/-- Witness for C7 at `T = 2`, `d = 1`. -/
theorem claim_progress_bar_arith_witness :
    ((progressBar (progressDone 1 2)).count '=' = 50 * 1 / 2
     ∧ (progressBar (progressDone 1 2)).length = 50
     ∧ progressPercent 1 2 = 100 * 1 / 2)
    ∧ ((progressBar (progressDone 2 2)).count '=' = 50
     ∧ (progressBar (progressDone 2 2)).length = 50
     ∧ progressPercent 2 2 = 100) :=
  ⟨claim_progress_bar_arith.1 2 1 (by decide) (by decide) (by decide),
   claim_progress_bar_arith.2 2 (by decide)⟩

/-! ## Lemmas about the file-system model -/

theorem fsGet_fsSet (fs : List (Str × Bytes)) (p : Str) (b : Bytes) (q : Str) :
    fsGet (fsSet fs p b) q = if q = p then some b else fsGet fs q := by
  induction fs with
  | nil =>
    by_cases h : q = p
    · subst h; simp [fsSet, fsGet]
    · have h2 : ¬(p = q) := fun e => h e.symm
      simp [fsSet, fsGet, h, h2]
  | cons hd t ih =>
    obtain ⟨k, c⟩ := hd
    by_cases hk : k = p
    · subst hk
      by_cases hq : q = k
      · subst hq; simp [fsSet, fsGet]
      · have hq2 : ¬(k = q) := fun e => hq e.symm
        simp [fsSet, fsGet, hq, hq2]
    · by_cases hq2 : k = q
      · subst hq2
        have hq3 : ¬(k = p) := hk
        simp [fsSet, fsGet, hk, hq3]
      · simp [fsSet, fsGet, hk, hq2, ih]

theorem fsExists_fsSet_mono (fs : List (Str × Bytes)) (p : Str) (b : Bytes)
    (q : Str) (h : fsExists fs q = true) :
    fsExists (fsSet fs p b) q = true := by
  unfold fsExists at h ⊢
  rw [fsGet_fsSet]
  by_cases hq : q = p
  · rw [if_pos hq]; rfl
  · rw [if_neg hq]; exact h

theorem fsExists_fsSet_self (fs : List (Str × Bytes)) (p : Str) (b : Bytes) :
    fsExists (fsSet fs p b) p = true := by
  unfold fsExists
  rw [fsGet_fsSet]
  simp

theorem fsExists_fsDel_self (fs : List (Str × Bytes)) (p : Str) :
    fsExists (fsDel fs p) p = false := by
  induction fs with
  | nil => simp [fsDel, fsExists, fsGet]
  | cons hd t ih =>
    obtain ⟨k, c⟩ := hd
    by_cases hk : k = p
    · simpa [fsDel, hk] using ih
    · simpa [fsDel, fsExists, fsGet, hk] using ih

theorem fsExists_extractAll_mono (dest : Str) (es : List (Str × Bytes)) :
    ∀ (fs : List (Str × Bytes)) (q : Str), fsExists fs q = true →
      fsExists (extractAll fs dest es) q = true := by
  induction es with
  | nil => intro fs q h; exact h
  | cons en t ih =>
    intro fs q h
    exact ih _ q (fsExists_fsSet_mono _ _ _ _ h)

theorem writeChunks_fs_out (fname : Str) (total : Nat) (sp : Bool) :
    ∀ (cs : List Bytes) (dl : Nat) (w : World) (b : Bytes),
      fsGet w.fs fname = some b →
      fsGet (writeChunks fname total sp cs dl w).fs fname
        = some (b ++ cs.flatten) := by
  intro cs
  induction cs with
  | nil => intro dl w b h; simpa [writeChunks] using h
  | cons c t ih =>
    intro dl w b h
    unfold writeChunks
    dsimp only
    have hW : fsGet (wWrite w fname ((fsGet w.fs fname).getD [] ++ c)).fs fname
        = some (b ++ c) := by
      unfold wWrite
      dsimp only
      rw [fsGet_fsSet, if_pos rfl, h]
      rfl
    by_cases hsp : sp = true
    · rw [if_pos hsp]
      have hW2 : fsGet (wPrint (wWrite w fname ((fsGet w.fs fname).getD [] ++ c))
          (renderProgress (dl + c.length) total)).fs fname = some (b ++ c) := hW
      rw [ih (dl + c.length) _ (b ++ c) hW2, List.flatten_cons,
        List.append_assoc]
    · rw [if_neg hsp]
      rw [ih (dl + c.length) _ (b ++ c) hW, List.flatten_cons,
        List.append_assoc]

theorem fsExists_writeChunks_mono (fname : Str) (total : Nat) (sp : Bool) :
    ∀ (cs : List Bytes) (dl : Nat) (w : World) (q : Str),
      fsExists w.fs q = true →
      fsExists (writeChunks fname total sp cs dl w).fs q = true := by
  intro cs
  induction cs with
  | nil => intro dl w q h; simpa [writeChunks] using h
  | cons c t ih =>
    intro dl w q h
    unfold writeChunks
    dsimp only
    have hW : fsExists (wWrite w fname ((fsGet w.fs fname).getD [] ++ c)).fs q
        = true := fsExists_fsSet_mono _ _ _ _ h
    by_cases hsp : sp = true
    · rw [if_pos hsp]
      have hW2 : fsExists (wPrint (wWrite w fname ((fsGet w.fs fname).getD []
          ++ c)) (renderProgress (dl + c.length) total)).fs q = true := hW
      exact ih (dl + c.length) _ q hW2
    · rw [if_neg hsp]
      exact ih (dl + c.length) _ q hW

/-! ## Lemmas about the embedded operations -/

theorem wPrint_out_getLast (w : World) (m : Msg) :
    (wPrint w m).out.getLast? = some m := by
  simp [wPrint]

theorem wPrint_fs (w : World) (m : Msg) : (wPrint w m).fs = w.fs := rfl

theorem wWrite_fs (w : World) (p : Str) (b : Bytes) :
    (wWrite w p b).fs = fsSet w.fs p b := rfl

theorem osRemove_ok (w : World) (p : Str) (u : Unit) (w1 : World)
    (h : osRemove w p = .ok u w1) :
    w1 = { w with fs := fsDel w.fs p } := by
  unfold osRemove at h
  by_cases h1 : fsExists w.fs p = false
  · rw [if_pos h1] at h; cases h
  · rw [if_neg h1] at h
    by_cases h2 : p ∈ w.locked
    · rw [if_pos h2] at h; cases h
    · rw [if_neg h2] at h
      cases h
      rfl

theorem osRemove_err (w : World) (p : Str) (e : Err) (w1 : World)
    (h : osRemove w p = .err e w1) : w1 = w := by
  unfold osRemove at h
  by_cases h1 : fsExists w.fs p = false
  · rw [if_pos h1] at h; cases h; rfl
  · rw [if_neg h1] at h
    by_cases h2 : p ∈ w.locked
    · rw [if_pos h2] at h; cases h; rfl
    · rw [if_neg h2] at h; cases h

theorem download_file_ok_cases (env : Env) (url : Str) (fn : Option Str)
    (sp : Bool) (w : World) (d : Str) (w1 : World)
    (h : download_file env url fn sp w = .ok d w1) :
    d = chosenName url fn ∧ fsExists w1.fs d = true := by
  unfold download_file at h
  cases henv : env.http url with
  | connError m => rw [henv] at h; cases h
  | resp status clen chunks se =>
    rw [henv] at h
    dsimp only at h
    by_cases hst : 400 ≤ status ∧ status < 600
    · rw [if_pos hst] at h; cases h
    · rw [if_neg hst] at h
      by_cases hbr : clen = 0 ∨ sp = false
      · rw [if_pos hbr] at h
        cases se with
        | some m => cases h
        | none =>
          cases h
          exact ⟨rfl, fsExists_fsSet_mono _ _ _ _
            (fsExists_fsSet_self _ _ _)⟩
      · rw [if_neg hbr] at h
        cases se with
        | some m => cases h
        | none =>
          by_cases hsp : sp = true
          · rw [if_pos hsp] at h
            cases h
            exact ⟨rfl, fsExists_writeChunks_mono _ _ _ _ _ _ _
              (fsExists_fsSet_self _ _ _)⟩
          · rw [if_neg hsp] at h
            cases h
            exact ⟨rfl, fsExists_writeChunks_mono _ _ _ _ _ _ _
              (fsExists_fsSet_self _ _ _)⟩

theorem download_file_mono (env : Env) (url : Str) (fn : Option Str)
    (sp : Bool) (w : World) (q : Str) (h : fsExists w.fs q = true) :
    fsExists ((download_file env url fn sp w).world).fs q = true := by
  unfold download_file
  cases henv : env.http url with
  | connError m => exact h
  | resp status clen chunks se =>
    dsimp only
    by_cases hst : 400 ≤ status ∧ status < 600
    · rw [if_pos hst]; exact h
    · rw [if_neg hst]
      by_cases hbr : clen = 0 ∨ sp = false
      · rw [if_pos hbr]
        cases se with
        | some m => exact fsExists_fsSet_mono _ _ _ _ h
        | none =>
          exact fsExists_fsSet_mono _ _ _ _ (fsExists_fsSet_mono _ _ _ _ h)
      · rw [if_neg hbr]
        cases se with
        | some m =>
          exact fsExists_writeChunks_mono _ _ _ _ _ _ _
            (fsExists_fsSet_mono _ _ _ _ h)
        | none =>
          by_cases hsp : sp = true
          · rw [if_pos hsp]
            exact fsExists_writeChunks_mono _ _ _ _ _ _ _
              (fsExists_fsSet_mono _ _ _ _ h)
          · rw [if_neg hsp]
            exact fsExists_writeChunks_mono _ _ _ _ _ _ _
              (fsExists_fsSet_mono _ _ _ _ h)

theorem unzip_file_mono (env : Env) (zp et : Str) (w : World) (q : Str)
    (h : fsExists w.fs q = true) :
    fsExists ((unzip_file env zp et w).world).fs q = true := by
  unfold unzip_file
  by_cases hex : fsExists w.fs zp = false
  · rw [if_pos hex]; exact h
  · rw [if_neg hex]
    dsimp only [wPrint_fs]
    cases env.zip ((fsGet w.fs zp).getD []) with
    | badZip m => exact h
    | archive es se =>
      cases se with
      | some m => exact fsExists_extractAll_mono _ _ _ _ h
      | none => exact fsExists_extractAll_mono _ _ _ _ h

theorem unzip_file_err_exists_eq (env : Env) (zp et : Str) (w : World)
    (e : Err) (w1 : World) (h : unzip_file env zp et w = .err e w1) :
    fsExists w1.fs zp = fsExists w.fs zp := by
  unfold unzip_file at h
  by_cases hex : fsExists w.fs zp = false
  · rw [if_pos hex] at h; cases h; rfl
  · rw [if_neg hex] at h
    dsimp only [wPrint_fs] at h
    have hex2 : fsExists w.fs zp = true := by
      cases hb : fsExists w.fs zp
      · exact absurd hb hex
      · rfl
    cases hz : env.zip ((fsGet w.fs zp).getD []) with
    | badZip m => rw [hz] at h; cases h; exact hex2.trans hex2.symm
    | archive es se =>
      rw [hz] at h
      cases se with
      | some m =>
        cases h
        rw [hex2]
        exact fsExists_extractAll_mono _ _ _ _ hex2
      | none => cases h

theorem unzip_file_ok_exists (env : Env) (zp et : Str) (w : World)
    (dir : Str) (w1 : World) (h : unzip_file env zp et w = .ok dir w1) :
    fsExists w1.fs zp = true ∧ dir = et := by
  unfold unzip_file at h
  by_cases hex : fsExists w.fs zp = false
  · rw [if_pos hex] at h; cases h
  · rw [if_neg hex] at h
    dsimp only [wPrint_fs] at h
    have hex2 : fsExists w.fs zp = true := by
      cases hb : fsExists w.fs zp
      · exact absurd hb hex
      · rfl
    cases hz : env.zip ((fsGet w.fs zp).getD []) with
    | badZip m => rw [hz] at h; cases h
    | archive es se =>
      rw [hz] at h
      cases se with
      | some m => cases h
      | none =>
        cases h
        exact ⟨fsExists_extractAll_mono _ _ _ _ hex2, rfl⟩

theorem download_file_err_log (env : Env) (url : Str) (fn : Option Str)
    (sp : Bool) (w : World) (e : Err) (w1 : World)
    (h : download_file env url fn sp w = .err e w1) :
    w1.out.getLast? = some (.errorDownloading e) := by
  unfold download_file at h
  cases henv : env.http url with
  | connError m =>
    rw [henv] at h
    cases h
    exact wPrint_out_getLast _ _
  | resp status clen chunks se =>
    rw [henv] at h
    dsimp only at h
    by_cases hst : 400 ≤ status ∧ status < 600
    · rw [if_pos hst] at h
      cases h
      exact wPrint_out_getLast _ _
    · rw [if_neg hst] at h
      by_cases hbr : clen = 0 ∨ sp = false
      · rw [if_pos hbr] at h
        cases se with
        | some m =>
          cases h
          exact wPrint_out_getLast _ _
        | none => cases h
      · rw [if_neg hbr] at h
        cases se with
        | some m =>
          cases h
          exact wPrint_out_getLast _ _
        | none =>
          by_cases hsp : sp = true
          · rw [if_pos hsp] at h; cases h
          · rw [if_neg hsp] at h; cases h

theorem unzip_file_err_log (env : Env) (zp et : Str) (w : World) (e : Err)
    (w1 : World) (h : unzip_file env zp et w = .err e w1) :
    (e = .fileNotFound zp ∧ w1 = w)
    ∨ w1.out.getLast? = some (.errorInvalidZip e) := by
  unfold unzip_file at h
  by_cases hex : fsExists w.fs zp = false
  · rw [if_pos hex] at h
    cases h
    exact Or.inl ⟨rfl, rfl⟩
  · rw [if_neg hex] at h
    dsimp only [wPrint_fs] at h
    cases hz : env.zip ((fsGet w.fs zp).getD []) with
    | badZip m =>
      rw [hz] at h
      cases h
      exact Or.inr (wPrint_out_getLast _ _)
    | archive es se =>
      rw [hz] at h
      cases se with
      | some m =>
        cases h
        exact Or.inr (wPrint_out_getLast _ _)
      | none => cases h

/-! ## Claims C4 and C5: extractor failure behaviour -/

/-- C4: calling `unzip_file` on a path that does not exist fails with a
`FileNotFoundError` naming the path, before any attempt to open the
archive: the result is independent of the zip library (`env` is
universally quantified, the zip oracle is never consulted) and the world
is returned unchanged. -/
theorem claim_unzip_missing_source (env : Env) (zp et : Str) (w : World)
    (h : fsExists w.fs zp = false) :
    unzip_file env zp et w = .err (.fileNotFound zp) w := by
  unfold unzip_file
  rw [if_pos h]

/-- Witness for C4: extracting `"z"` from an empty file system. -/
theorem claim_unzip_missing_source_witness :
    unzip_file envConn ['z'] destC w0 = .err (.fileNotFound ['z']) w0 :=
  claim_unzip_missing_source envConn ['z'] destC w0 (by decide)

/-- C5: calling `unzip_file` on an existing file that is not a well-formed
zip raises `BadZipFile` to the caller (a returned error, not a crash),
after logging it; entries already extracted before a late `BadZipFile` is
detected remain on disk (the error world contains exactly the extracted
entries). -/
theorem claim_unzip_invalid_archive (env : Env) (zp et : Str) (w : World)
    (bytes : Bytes) (hget : fsGet w.fs zp = some bytes) :
    (∀ m, env.zip bytes = .badZip m →
        unzip_file env zp et w
          = .err (.badZipFile m)
              (wPrint (wPrint w (.extracting zp))
                (.errorInvalidZip (.badZipFile m))))
    ∧ ∀ es m, env.zip bytes = .archive es (some m) →
        unzip_file env zp et w
          = .err (.badZipFile m)
              (wPrint { wPrint w (.extracting zp) with
                  fs := extractAll w.fs et es }
                (.errorInvalidZip (.badZipFile m))) := by
  have hex : ¬(fsExists w.fs zp = false) := by
    simp [fsExists, hget]
  constructor
  · intro m hz
    unfold unzip_file
    rw [if_neg hex]
    dsimp only [wPrint_fs]
    rw [hget]
    simp only [Option.getD_some]
    rw [hz]
  · intro es m hz
    unfold unzip_file
    rw [if_neg hex]
    dsimp only [wPrint_fs]
    rw [hget]
    simp only [Option.getD_some]
    rw [hz]

/-- Witness for C5: the archive `"z"` with a rejecting zip library, and
with a zip library that fails after extracting one entry. -/
theorem claim_unzip_invalid_archive_witness :
    unzip_file envBadZip ['z'] destC wZip
      = .err (.badZipFile ['m'])
          (wPrint (wPrint wZip (.extracting ['z']))
            (.errorInvalidZip (.badZipFile ['m'])))
    ∧ unzip_file envZipErr ['z'] destC wZip
      = .err (.badZipFile ['e'])
          (wPrint { wPrint wZip (.extracting ['z']) with
              fs := extractAll wZip.fs destC [(['x'], [7])] }
            (.errorInvalidZip (.badZipFile ['e']))) :=
  ⟨(claim_unzip_invalid_archive envBadZip ['z'] destC wZip zipBytesC
      (by decide)).1 ['m'] rfl,
   (claim_unzip_invalid_archive envZipErr ['z'] destC wZip zipBytesC
      (by decide)).2 [(['x'], [7])] ['e'] rfl⟩

/-! ## Claim C1: pipeline order of download_and_extract -/

/-- C1: `download_and_extract` runs download, then extraction of the file
the download returned, then optional cleanup of that same file; each later
stage runs only on success of the previous one, any failure propagates
immediately as the result (same exception, no retry, no partial-success
value), and a failure of extraction leaves the downloaded file on disk
(cleanup is not reached). -/
theorem claim_pipeline_order (env : Env) (url : Str) (fn : Option Str)
    (et : Str) (cl sp : Bool) (w : World) :
    (∀ e w1, download_file env url fn sp w = .err e w1 →
        download_and_extract env url fn et cl sp w
          = .err e (wPrint w1 (.errorDownloadAndExtract e)))
    ∧ (∀ d w1 e w2, download_file env url fn sp w = .ok d w1 →
        unzip_file env d et w1 = .err e w2 →
        download_and_extract env url fn et cl sp w
          = .err e (wPrint w2 (.errorDownloadAndExtract e))
        ∧ fsExists w2.fs d = true)
    ∧ ∀ d w1 dir w2, download_file env url fn sp w = .ok d w1 →
        unzip_file env d et w1 = .ok dir w2 →
        (cl = false →
          download_and_extract env url fn et cl sp w = .ok (d, dir) w2)
        ∧ ∀ e w3, osRemove w2 d = .err e w3 → cl = true →
            download_and_extract env url fn et cl sp w
              = .err e (wPrint w3 (.errorDownloadAndExtract e)) := by
  refine ⟨?_, ?_, ?_⟩
  · intro e w1 hdl
    unfold download_and_extract
    rw [hdl]
  · intro d w1 e w2 hdl hun
    refine ⟨?_, ?_⟩
    · unfold download_and_extract
      rw [hdl]
      dsimp only
      rw [hun]
    · rw [unzip_file_err_exists_eq env d et w1 e w2 hun]
      exact (download_file_ok_cases env url fn sp w d w1 hdl).2
  · intro d w1 dir w2 hdl hun
    constructor
    · intro hcl
      subst hcl
      unfold download_and_extract
      rw [hdl]
      dsimp only
      rw [hun]
      exact rfl
    · intro e w3 hrem hcl
      subst hcl
      unfold download_and_extract
      rw [hdl]
      dsimp only
      rw [hun]
      dsimp only
      rw [if_pos rfl]
      rw [hrem]

/-- Witness for C1: a failing download aborts before extraction; a failing
extraction aborts before cleanup and leaves the downloaded file; a clean
run without cleanup returns both paths; a denied cleanup propagates. -/
theorem claim_pipeline_order_witness :
    download_and_extract envConn urlC none destC false true w0
      = .err (.connError ['c'])
          (wPrint (wPrint (wPrint w0 (.downloading fnameC urlC))
            (.errorDownloading (.connError ['c'])))
            (.errorDownloadAndExtract (.connError ['c'])))
    ∧ (download_and_extract envBadZip urlC none destC false false w0
        = .err (.badZipFile ['m'])
            (wPrint (wPrint (wPrint wDl (.extracting fnameC))
              (.errorInvalidZip (.badZipFile ['m'])))
              (.errorDownloadAndExtract (.badZipFile ['m'])))
      ∧ fsExists (wPrint (wPrint wDl (.extracting fnameC))
          (.errorInvalidZip (.badZipFile ['m']))).fs fnameC = true)
    ∧ download_and_extract envOk urlC none destC false false w0
        = .ok (fnameC, destC) wOkFinal
    ∧ download_and_extract envOk urlC none destC true false wLockA
        = .err (.removeDenied fnameC)
            (wPrint wUnzLock (.errorDownloadAndExtract (.removeDenied fnameC))) :=
  ⟨(claim_pipeline_order envConn urlC none destC false true w0).1
      (.connError ['c']) _ (by decide),
   (claim_pipeline_order envBadZip urlC none destC false false w0).2.1
      fnameC wDl (.badZipFile ['m'])
      (wPrint (wPrint wDl (.extracting fnameC))
        (.errorInvalidZip (.badZipFile ['m'])))
      (by decide) (by decide),
   ((claim_pipeline_order envOk urlC none destC false false w0).2.2
      fnameC wDl destC wOkFinal (by decide) (by decide)).1 rfl,
   ((claim_pipeline_order envOk urlC none destC true false wLockA).2.2
      fnameC wDlLock destC wUnzLock (by decide) (by decide)).2
      (.removeDenied fnameC) wUnzLock (by decide) rfl⟩

/-! ## Claims C2 and C9: cleanup behaviour -/

/-- C2: with cleanup requested, the archive is deleted only after a
successful extraction — a successful `extract_from_location` with
`cleanup=true` leaves the archive absent, a failed extraction propagates
without deleting the archive, and a failing deletion itself propagates
as the error of the call; the same holds for the cleanup stage of
`download_and_extract`. -/
theorem claim_cleanup_after_success (env : Env) (zp et : Str) (w : World) :
    (∀ dir w1, extract_from_location env zp et true w = .ok dir w1 →
        fsExists w1.fs zp = false)
    ∧ (∀ e w1, unzip_file env zp et w = .err e w1 →
        extract_from_location env zp et true w
          = .err e (wPrint w1 (.errorExtractFromLocation e))
        ∧ fsExists w1.fs zp = fsExists w.fs zp)
    ∧ (∀ dir w1 e w2, unzip_file env zp et w = .ok dir w1 →
        osRemove w1 zp = .err e w2 →
        extract_from_location env zp et true w
          = .err e (wPrint w2 (.errorExtractFromLocation e)))
    ∧ ∀ url fn sp d dir w1,
        download_and_extract env url fn et true sp w = .ok (d, dir) w1 →
        fsExists w1.fs d = false := by
  refine ⟨?_, ?_, ?_, ?_⟩
  · intro dir w1 hok
    unfold extract_from_location at hok
    cases hun : unzip_file env zp et w with
    | err e w2 => rw [hun] at hok; cases hok
    | ok dir2 w2 =>
      rw [hun] at hok
      dsimp only at hok
      rw [if_pos rfl] at hok
      cases hrem : osRemove w2 zp with
      | err e w3 => rw [hrem] at hok; cases hok
      | ok u w3 =>
        rw [hrem] at hok
        cases hok
        have h3 := osRemove_ok w2 zp u w3 hrem
        rw [wPrint_fs, h3]
        exact fsExists_fsDel_self _ _
  · intro e w1 hun
    refine ⟨?_, unzip_file_err_exists_eq env zp et w e w1 hun⟩
    unfold extract_from_location
    rw [hun]
  · intro dir w1 e w2 hun hrem
    unfold extract_from_location
    rw [hun]
    dsimp only
    rw [if_pos rfl]
    rw [hrem]
  · intro url fn sp d dir w1 hok
    unfold download_and_extract at hok
    cases hdl : download_file env url fn sp w with
    | err e w2 => rw [hdl] at hok; cases hok
    | ok d2 w2 =>
      rw [hdl] at hok
      dsimp only at hok
      cases hun : unzip_file env d2 et w2 with
      | err e w3 => rw [hun] at hok; cases hok
      | ok dir2 w3 =>
        rw [hun] at hok
        dsimp only at hok
        rw [if_pos rfl] at hok
        cases hrem : osRemove w3 d2 with
        | err e w4 => rw [hrem] at hok; cases hok
        | ok u w4 =>
          rw [hrem] at hok
          cases hok
          have h4 := osRemove_ok w3 d u w4 hrem
          rw [wPrint_fs, h4]
          exact fsExists_fsDel_self _ _

/-- Witness for C2: cleanup success leaves `"z"` absent; a bad archive
aborts with the archive still present; a permission-denied deletion
propagates; download-and-extract with cleanup leaves the download absent. -/
theorem claim_cleanup_after_success_witness :
    fsExists wCleaned.fs ['z'] = false
    ∧ (extract_from_location envBadZip ['z'] destC true wZip
        = .err (.badZipFile ['m'])
            (wPrint (wPrint (wPrint wZip (.extracting ['z']))
              (.errorInvalidZip (.badZipFile ['m'])))
              (.errorExtractFromLocation (.badZipFile ['m'])))
      ∧ fsExists (wPrint (wPrint wZip (.extracting ['z']))
          (.errorInvalidZip (.badZipFile ['m']))).fs ['z']
          = fsExists wZip.fs ['z'])
    ∧ extract_from_location envOk ['z'] destC true wZipLocked
        = .err (.removeDenied ['z'])
            (wPrint wZipUnzLocked
              (.errorExtractFromLocation (.removeDenied ['z'])))
    ∧ fsExists wDaeClean.fs fnameC = false :=
  ⟨(claim_cleanup_after_success envOk ['z'] destC wZip).1 destC wCleaned
      (by decide),
   (claim_cleanup_after_success envBadZip ['z'] destC wZip).2.1
      (.badZipFile ['m'])
      (wPrint (wPrint wZip (.extracting ['z']))
        (.errorInvalidZip (.badZipFile ['m'])))
      (by decide),
   (claim_cleanup_after_success envOk ['z'] destC wZipLocked).2.2.1
      destC wZipUnzLocked (.removeDenied ['z']) wZipUnzLocked
      (by decide) (by decide),
   (claim_cleanup_after_success envOk ['z'] destC w0).2.2.2
      urlC none false fnameC destC wDaeClean (by decide)⟩

/-- C9: with `cleanup=false` (the default) neither
`extract_from_location` nor `download_and_extract` ever deletes a file:
every file present before the call is present after it (whatever the
outcome), and after a successful run the archive (resp. the downloaded
file) is still on disk. -/
theorem claim_no_cleanup_by_default (env : Env) (zp et : Str) (w : World) :
    (∀ q, fsExists w.fs q = true →
        fsExists ((extract_from_location env zp et false w).world).fs q
          = true)
    ∧ (∀ dir w1, extract_from_location env zp et false w = .ok dir w1 →
        fsExists w1.fs zp = true)
    ∧ ∀ url fn sp,
        (∀ q, fsExists w.fs q = true →
          fsExists ((download_and_extract env url fn et false sp w).world).fs
            q = true)
        ∧ ∀ d dir w1, download_and_extract env url fn et false sp w
            = .ok (d, dir) w1 → fsExists w1.fs d = true := by
  refine ⟨?_, ?_, ?_⟩
  · intro q h
    unfold extract_from_location
    cases hun : unzip_file env zp et w with
    | err e w1 =>
      have hm := unzip_file_mono env zp et w q h
      rw [hun] at hm
      exact hm
    | ok dir w1 =>
      have hm := unzip_file_mono env zp et w q h
      rw [hun] at hm
      exact hm
  · intro dir w1 hok
    unfold extract_from_location at hok
    cases hun : unzip_file env zp et w with
    | err e w2 => rw [hun] at hok; cases hok
    | ok dir2 w2 =>
      rw [hun] at hok
      dsimp only at hok
      rw [if_neg (by decide : ¬(false = true))] at hok
      cases hok
      exact (unzip_file_ok_exists env zp et w dir w1 hun).1
  · intro url fn sp
    constructor
    · intro q h
      unfold download_and_extract
      cases hdl : download_file env url fn sp w with
      | err e w1 =>
        have hm := download_file_mono env url fn sp w q h
        rw [hdl] at hm
        exact hm
      | ok d w1 =>
        have hm := download_file_mono env url fn sp w q h
        rw [hdl] at hm
        dsimp only
        cases hun : unzip_file env d et w1 with
        | err e w2 =>
          have hm2 := unzip_file_mono env d et w1 q hm
          rw [hun] at hm2
          exact hm2
        | ok dir w2 =>
          have hm2 := unzip_file_mono env d et w1 q hm
          rw [hun] at hm2
          exact hm2
    · intro d dir w1 hok
      unfold download_and_extract at hok
      cases hdl : download_file env url fn sp w with
      | err e w2 => rw [hdl] at hok; cases hok
      | ok d2 w2 =>
        rw [hdl] at hok
        dsimp only at hok
        cases hun : unzip_file env d2 et w2 with
        | err e w3 => rw [hun] at hok; cases hok
        | ok dir2 w3 =>
          rw [hun] at hok
          dsimp only at hok
          rw [if_neg (by decide : ¬(false = true))] at hok
          cases hok
          have h1 := (download_file_ok_cases env url fn sp w d w2 hdl).2
          have h2 := unzip_file_mono env d et w2 d h1
          rw [hun] at h2
          exact h2

/-- Witness for C9: extraction without cleanup keeps the archive on disk,
and download-and-extract without cleanup keeps the downloaded file. -/
theorem claim_no_cleanup_by_default_witness :
    fsExists ((extract_from_location envOk ['z'] destC false
      wZip).world).fs ['z'] = true
    ∧ fsExists wZipUnz.fs ['z'] = true
    ∧ fsExists ((download_and_extract envOk urlC none destC false false
        wZip).world).fs ['z'] = true
    ∧ fsExists wOkFinal.fs fnameC = true :=
  ⟨(claim_no_cleanup_by_default envOk ['z'] destC wZip).1 ['z'] (by decide),
   (claim_no_cleanup_by_default envOk ['z'] destC wZip).2.1 destC wZipUnz
      (by decide),
   ((claim_no_cleanup_by_default envOk ['z'] destC wZip).2.2 urlC none
      false).1 ['z'] (by decide),
   ((claim_no_cleanup_by_default envOk ['z'] destC w0).2.2 urlC none
      false).2 fnameC destC wOkFinal (by decide)⟩

/-! ## Claims C3 and C8: failure propagation and logging -/

/-- C3 (amended): a connection failure, or a 4xx/5xx HTTP status
(`raise_for_status` raises exactly for statuses 400-599 — not for every
non-2xx status, see the counterexample), aborts `download_file` before the
output file is opened: the error carrying the cause is the result and the
file system is unchanged (the result world only appends output lines to
`w`).  A failure while reading the body aborts with the partial data on
disk and no rollback: the file holds exactly the delivered chunks in the
streaming branch, and is empty in the buffered branch. -/
theorem claim_download_failure_handling (env : Env) (url : Str)
    (fn : Option Str) (sp : Bool) (w : World) :
    (∀ m, env.http url = .connError m →
        download_file env url fn sp w
          = .err (.connError m)
              (wPrint (wPrint w (.downloading (chosenName url fn) url))
                (.errorDownloading (.connError m))))
    ∧ (∀ s clen chunks se, env.http url = .resp s clen chunks se →
        400 ≤ s → s < 600 →
        download_file env url fn sp w
          = .err (.httpStatusError s)
              (wPrint (wPrint w (.downloading (chosenName url fn) url))
                (.errorDownloading (.httpStatusError s))))
    ∧ ∀ s clen chunks m, env.http url = .resp s clen chunks (some m) →
        ¬(400 ≤ s ∧ s < 600) →
        ∃ w1, download_file env url fn sp w = .err (.streamError m) w1
          ∧ fsGet w1.fs (chosenName url fn)
              = some (if clen = 0 ∨ sp = false then [] else chunks.flatten) := by
  refine ⟨?_, ?_, ?_⟩
  · intro m henv
    unfold download_file
    dsimp only
    rw [henv]
  · intro s clen chunks se henv h4 h6
    unfold download_file
    dsimp only
    rw [henv]
    dsimp only
    rw [if_pos ⟨h4, h6⟩]
  · intro s clen chunks m henv hst
    unfold download_file
    dsimp only
    rw [henv]
    dsimp only
    rw [if_neg hst]
    by_cases hbr : clen = 0 ∨ sp = false
    · rw [if_pos hbr, if_pos hbr]
      refine ⟨_, rfl, ?_⟩
      dsimp only [wPrint_fs, wWrite_fs]
      rw [fsGet_fsSet, if_pos rfl]
    · rw [if_neg hbr, if_neg hbr]
      refine ⟨_, rfl, ?_⟩
      dsimp only [wPrint_fs]
      have h0 : fsGet (wWrite (wPrint w
          (.downloading (chosenName url fn) url)) (chosenName url fn) []).fs
          (chosenName url fn) = some [] := by
        dsimp only [wWrite_fs]
        rw [fsGet_fsSet, if_pos rfl]
      have hc := writeChunks_fs_out (chosenName url fn) clen sp chunks 0 _ []
        h0
      simpa using hc

/-- C3 counterexample: HTTP 304 is a non-2xx status, yet `download_file`
does not abort on it — `raise_for_status` raises only for 4xx/5xx — so
"any non-2xx HTTP status aborts the operation" is false: the call
succeeds and writes the (empty) output file. -/
theorem claim_download_failure_counterexample :
    download_file env304 urlC none true w0
      = .ok fnameC
          { fs := [(fnameC, [])], locked := []
            out := [.downloading fnameC urlC, .downloaded fnameC] } := by
  decide

/-- Witness for C3: a connection failure, and a 404 response, each abort
with the cause and leave the file system of `w0` unchanged. -/
theorem claim_download_failure_handling_witness :
    download_file envConn urlC none true w0
      = .err (.connError ['c'])
          (wPrint (wPrint w0 (.downloading (chosenName urlC none) urlC))
            (.errorDownloading (.connError ['c'])))
    ∧ download_file env404 urlC none true w0
      = .err (.httpStatusError 404)
          (wPrint (wPrint w0 (.downloading (chosenName urlC none) urlC))
            (.errorDownloading (.httpStatusError 404))) :=
  ⟨(claim_download_failure_handling envConn urlC none true w0).1 ['c'] rfl,
   (claim_download_failure_handling env404 urlC none true w0).2.1
      404 9 [[60, 62]] none rfl (by decide) (by decide)⟩

/-- C8 (amended): no failure is swallowed or retried — every failure is
the returned error of its operation — and every failure is logged to
standard output as the final line before propagating, with one exception
the original claim misses: `unzip_file`'s not-found precondition failure
is raised before its `try` block, so `unzip_file` itself propagates it
without printing anything (the orchestrators then log it). -/
theorem claim_error_logging (env : Env) (w : World) :
    (∀ url fn sp e w1, download_file env url fn sp w = .err e w1 →
        w1.out.getLast? = some (.errorDownloading e))
    ∧ (∀ zp et e w1, unzip_file env zp et w = .err e w1 →
        (e = .fileNotFound zp ∧ w1 = w)
        ∨ w1.out.getLast? = some (.errorInvalidZip e))
    ∧ (∀ zp et cl e w1, extract_from_location env zp et cl w = .err e w1 →
        w1.out.getLast? = some (.errorExtractFromLocation e))
    ∧ ∀ url fn et cl sp e w1,
        download_and_extract env url fn et cl sp w = .err e w1 →
        w1.out.getLast? = some (.errorDownloadAndExtract e) := by
  refine ⟨?_, ?_, ?_, ?_⟩
  · exact fun url fn sp e w1 h => download_file_err_log env url fn sp w e w1 h
  · exact fun zp et e w1 h => unzip_file_err_log env zp et w e w1 h
  · intro zp et cl e w1 h
    unfold extract_from_location at h
    cases hun : unzip_file env zp et w with
    | err e2 w2 =>
      rw [hun] at h
      cases h
      exact wPrint_out_getLast _ _
    | ok dir w2 =>
      rw [hun] at h
      dsimp only at h
      by_cases hcl : cl = true
      · subst hcl
        rw [if_pos rfl] at h
        cases hrem : osRemove w2 zp with
        | err e3 w3 =>
          rw [hrem] at h
          cases h
          exact wPrint_out_getLast _ _
        | ok u w3 => rw [hrem] at h; cases h
      · have hcl2 : cl = false := by
          cases cl
          · rfl
          · exact absurd rfl hcl
        subst hcl2
        rw [if_neg (by decide : ¬(false = true))] at h
        cases h
  · intro url fn et cl sp e w1 h
    unfold download_and_extract at h
    cases hdl : download_file env url fn sp w with
    | err e2 w2 =>
      rw [hdl] at h
      cases h
      exact wPrint_out_getLast _ _
    | ok d w2 =>
      rw [hdl] at h
      dsimp only at h
      cases hun : unzip_file env d et w2 with
      | err e2 w3 =>
        rw [hun] at h
        cases h
        exact wPrint_out_getLast _ _
      | ok dir w3 =>
        rw [hun] at h
        dsimp only at h
        by_cases hcl : cl = true
        · subst hcl
          rw [if_pos rfl] at h
          cases hrem : osRemove w3 d with
          | err e3 w4 =>
            rw [hrem] at h
            cases h
            exact wPrint_out_getLast _ _
          | ok u w4 => rw [hrem] at h; cases h
        · have hcl2 : cl = false := by
            cases cl
            · rfl
            · exact absurd rfl hcl
          subst hcl2
          rw [if_neg (by decide : ¬(false = true))] at h
          cases h

/-- C8 counterexample: a failure that is never logged — `unzip_file` on a
missing path propagates `FileNotFoundError` while printing nothing
(`w0.out` is empty before and after), refuting "every failure is logged
to standard output ... and then re-raised". -/
theorem claim_error_logging_counterexample :
    unzip_file envOk ['z'] destC w0 = .err (.fileNotFound ['z']) w0
    ∧ w0.out = [] := by
  decide

/-- Witness for C8: each operation's failure ends the output with the
matching contextual error line (or, for `unzip_file`'s not-found case,
propagates unchanged). -/
theorem claim_error_logging_witness :
    (wPrint (wPrint w0 (.downloading fnameC urlC))
      (.errorDownloading (.connError ['c']))).out.getLast?
        = some (.errorDownloading (.connError ['c']))
    ∧ ((Err.fileNotFound ['z'] = .fileNotFound ['z'] ∧ w0 = w0)
        ∨ w0.out.getLast?
            = some (.errorInvalidZip (.fileNotFound ['z'])))
    ∧ (wPrint (wPrint (wPrint wZip (.extracting ['z']))
        (.errorInvalidZip (.badZipFile ['m'])))
        (.errorExtractFromLocation (.badZipFile ['m']))).out.getLast?
          = some (.errorExtractFromLocation (.badZipFile ['m']))
    ∧ (wPrint (wPrint (wPrint w0 (.downloading fnameC urlC))
        (.errorDownloading (.connError ['c'])))
        (.errorDownloadAndExtract (.connError ['c']))).out.getLast?
          = some (.errorDownloadAndExtract (.connError ['c'])) :=
  ⟨(claim_error_logging envConn w0).1 urlC none true (.connError ['c']) _
      (by decide),
   (claim_error_logging envOk w0).2.1 ['z'] destC (.fileNotFound ['z']) w0
      (by decide),
   (claim_error_logging envBadZip wZip).2.2.1 ['z'] destC true
      (.badZipFile ['m']) _ (by decide),
   (claim_error_logging envConn w0).2.2.2 urlC none destC false true
      (.connError ['c']) _ (by decide)⟩

end Utils
